import Mathlib

/-!
Verification of `sample_identify_and_merge_cross_page_tables.py`.

Shallow embedding of the cross-page table identification-and-merge pipeline.
Python unbounded integers are `Int`; fallible code (Python exceptions) returns
`Except`/`Option`; a Python list mutated in place with `None` sentinels is
`List (Option HtmlTable)`.

The HTML markup handled by the pipeline is of the restricted shape the pipeline
itself produces: `<table><tr>cell*</tr>...</table>`.  We represent that markup
structurally, as a `List (List HtmlCell)` (the list of `<tr>` rows, each a list
of `<th>`/`<td>` cells), since BeautifulSoup's parse of the serialized form
recovers exactly that row/cell structure.  `find_all('tr')`, "row contains a
`<th>`", row concatenation and row slicing are then list operations on it.
-/

/-! ## Data model (inputs of the pipeline) -/

/-- One `(offset, length)` span into the source document. -/
structure RawSpan where
  offset : Int
  length : Int
deriving DecidableEq, Repr

/-- One bounding region of a table; the pipeline uses only its page number. -/
structure BoundingRegion where
  page_number : Int
deriving DecidableEq, Repr

/-- One extracted table cell.  `kind` is the optional cell kind tag
(`'columnHeader'` marks a header cell); `spans` are the cell-level document
spans (present in the service response, never consulted by this source). -/
structure RawCell where
  rowIndex : Int
  columnIndex : Int
  rowSpan : Int
  columnSpan : Int
  kind : Option String
  content : String
  spans : List RawSpan
deriving DecidableEq, Repr

/-- One extracted table as returned by the layout analyzer. -/
structure RawTable where
  row_count : Int
  column_count : Int
  cells : List RawCell
  bounding_regions : List BoundingRegion
  spans : List RawSpan
deriving DecidableEq, Repr

/-- One extracted paragraph.  `role = none` models a paragraph whose logical
role is unset (attribute absent or `None`). -/
structure Paragraph where
  spans : List RawSpan
  role : Option String
deriving DecidableEq, Repr

/-- A cell of the rendered markup: a `<th>` (when `isTh`) or `<td>` element. -/
structure HtmlCell where
  isTh : Bool
  rowSpan : Int
  colSpan : Int
  content : String
deriving DecidableEq, Repr

/-- The normalized record built by `prepare_html_tables` for each table
(the Python dict with keys `min_offset` .. `content`).  `content` is the
rendered markup, kept structurally as its list of `<tr>` rows. -/
structure HtmlTable where
  min_offset : Int
  max_offset : Int
  table_page : List Int
  column_count : Int
  header_row_count : Int
  header_text : List String
  non_header_row_count : Int
  content : List (List HtmlCell)
deriving DecidableEq, Repr

/-- A merge candidate (the dict built by `find_merge_table_candidates`):
`start`/`stop` are its `"start"`/`"end"` keys. -/
structure MergeCandidate where
  pre_table_idx : Int
  start : Int
  stop : Int
deriving DecidableEq, Repr

/-- Faults the pipeline can surface.  `indexError` models Python's
`IndexError`, raised by `cells[0]` / `table.spans[0]` on empty input.
Modelled from the spec: `malformedTableError` stands for the
`MalformedTableError` class the design document's error taxonomy prescribes
for a cell-less table; the source defines and raises no such class. -/
inductive PyError where
  | indexError
  | malformedTableError
deriving DecidableEq, Repr

/-! ## Generic helpers mirroring Python built-ins -/

/-- Insert into a sorted list according to the boolean total preorder `le`. -/
def insertSorted (le : α → α → Bool) (x : α) : List α → List α
  | [] => [x]
  | y :: ys => if le x y then x :: y :: ys else y :: insertSorted le x ys

/-- Comparison sort by `le`; models Python's `sorted` / `list.sort()`. -/
def pySorted (le : α → α → Bool) : List α → List α
  | [] => []
  | x :: xs => insertSorted le x (pySorted le xs)

/-- `min` of a Python int list; junk value `0` on `[]`, where Python raises
(theorems about page lists assume nonempty pages so this case is unreachable). -/
def listMinD (l : List Int) : Int :=
  match l with
  | [] => 0
  | x :: xs => xs.foldl min x

/-- `max` of a Python int list; junk value `0` on `[]` (see `listMinD`). -/
def listMaxD (l : List Int) : Int :=
  match l with
  | [] => 0
  | x :: xs => xs.foldl max x

/-- Python string `<`: lexicographic comparison by code point. -/
def charListLt : List Char → List Char → Bool
  | [], [] => false
  | [], _ :: _ => true
  | _ :: _, [] => false
  | a :: as, b :: bs =>
    if a.val < b.val then true
    else if b.val < a.val then false
    else charListLt as bs

/-- Python string `≤`, used to model `list.sort()` on strings. -/
def strLe (a b : String) : Bool := !(charListLt b.data a.data)

/-- Python int `≤` as a boolean. -/
def intLe (a b : Int) : Bool := decide (a ≤ b)

/-- Python list read `l[i]` with negative-index aliasing; `none` models
`IndexError`. -/
def pyGet (l : List α) (i : Int) : Option α :=
  let j : Int := if i < 0 then i + l.length else i
  if 0 ≤ j then l.get? j.toNat else none

/-- Python list write `l[i] = a` with negative-index aliasing; `none` models
`IndexError`. -/
def pySet (l : List α) (i : Int) (a : α) : Option (List α) :=
  let j : Int := if i < 0 then i + l.length else i
  if 0 ≤ j ∧ j < l.length then some (l.set j.toNat a) else none

/-- Python `content.replace('\\\\', '')`: drop each non-overlapping pair of
consecutive backslashes, scanning left to right. -/
def stripEscapes : List Char → List Char
  | [] => []
  | [c] => [c]
  | c :: d :: rest =>
    if c = '\\' && d = '\\' then stripEscapes rest
    else c :: stripEscapes (d :: rest)

/-- `str.replace('\\\\', '')` lifted to `String`. -/
def pyStripEscapes (s : String) : String := ⟨stripEscapes s.data⟩

/-! ## table_to_html -/

/-- Sort key of `table_to_html`: `(rowIndex, columnIndex)` tuple order. -/
def cellLe (a b : RawCell) : Bool :=
  decide (a.rowIndex < b.rowIndex) ||
    (a.rowIndex == b.rowIndex && decide (a.columnIndex ≤ b.columnIndex))

/-- Render one cell: `th` iff `kind == 'columnHeader'`; content escaped by
`content.replace('\\\\', '')`. -/
def toHtmlCell (c : RawCell) : HtmlCell :=
  { isTh := c.kind == some "columnHeader"
    rowSpan := c.rowSpan
    colSpan := c.columnSpan
    content := pyStripEscapes c.content }

/-- Emit the currently open `<tr>` row, if any (the `</tr>` of the source). -/
def closeRow (cur : Option (List HtmlCell)) : List (List HtmlCell) :=
  match cur with
  | some r => [r]
  | none => []

/-- The cell loop of `table_to_html` over the sorted cells.  `current` is
`current_row`; `cur` is the row opened by the last `<tr>` (if one is open).
A cell reached with no open row lies outside every `<tr>` in the emitted
string and so belongs to no row.  When `columnIndex == 0` recurs inside one
row the source emits a nested `<tr>` without a closing tag; the model starts
a fresh row there.  Neither case arises under `wellFormedCells`, the
hypothesis of every general theorem about the renderer. -/
def buildRowsAux : List RawCell → Int → Option (List HtmlCell) → List (List HtmlCell)
  | [], _, cur => closeRow cur
  | c :: rest, current, cur =>
    if c.rowIndex ≠ current then
      closeRow cur ++ buildRowsAux rest c.rowIndex (some [toHtmlCell c])
    else if c.columnIndex = 0 then
      closeRow cur ++ buildRowsAux rest c.rowIndex (some [toHtmlCell c])
    else
      match cur with
      | some r => buildRowsAux rest current (some (r ++ [toHtmlCell c]))
      | none => buildRowsAux rest current none

/-- `table_to_html`: sort the cells, then render rows.  `cells[0]` on an
empty cell list raises `IndexError`. -/
def table_to_html (t : RawTable) : Except PyError (List (List HtmlCell)) :=
  match pySorted cellLe t.cells with
  | [] => .error .indexError
  | c :: rest => .ok (buildRowsAux (c :: rest) c.rowIndex none)

/-! ## get_table_span_offsets and prepare_html_tables -/

/-- One step of the min/max loop of `get_table_span_offsets`. -/
def spanStep (mm : Int × Int) (sp : RawSpan) : Int × Int :=
  (if sp.offset < mm.1 then sp.offset else mm.1,
   if sp.offset + sp.length > mm.2 then sp.offset + sp.length else mm.2)

/-- `get_table_span_offsets`: extrema over the table's own `spans` list,
seeded from `spans[0]` (`IndexError` when there are no spans). -/
def get_table_span_offsets (t : RawTable) : Except PyError (Int × Int) :=
  match t.spans with
  | [] => .error .indexError
  | s0 :: rest =>
    .ok ((s0 :: rest).foldl spanStep (s0.offset, s0.offset + s0.length))

/-- `get_table_page_numbers`. -/
def get_table_page_numbers (t : RawTable) : List Int :=
  t.bounding_regions.map (fun r => r.page_number)

/-- Does a rendered row contain a `<th>`?  (BeautifulSoup's
`tag.name == 'tr' and tag.find('th')`.) -/
def rowHasTh (r : List HtmlCell) : Bool := r.any (fun c => c.isTh)

/-- The header rows of a markup: every `<tr>` containing a `<th>`. -/
def headerRowsOf (rows : List (List HtmlCell)) : List (List HtmlCell) :=
  rows.filter rowHasTh

/-- The body rows of a markup: every `<tr>` containing no `<th>`. -/
def bodyRowsOf (rows : List (List HtmlCell)) : List (List HtmlCell) :=
  rows.filter (fun r => !(rowHasTh r))

/-- The per-table body of `prepare_html_tables`: offsets, pages, rendered
markup, header-row count (`len` of all rows containing a `<th>`), sorted
header-cell texts, and `row_count - header_rows_count`. -/
def prepare_html_table (t : RawTable) : Except PyError HtmlTable :=
  match get_table_span_offsets t with
  | .error e => .error e
  | .ok mm =>
    match table_to_html t with
    | .error e => .error e
    | .ok rows =>
      .ok { min_offset := mm.1
            max_offset := mm.2
            table_page := get_table_page_numbers t
            column_count := t.column_count
            header_row_count := ((headerRowsOf rows).length : Int)
            header_text :=
              pySorted strLe ((rows.flatten.filter (fun c => c.isTh)).map (fun c => c.content))
            non_header_row_count := t.row_count - ((headerRowsOf rows).length : Int)
            content := rows }

/-- `prepare_html_tables` over the whole table list; the first fault aborts
the run (an uncaught exception in the Python loop). -/
def prepare_html_tables (ts : List RawTable) : Except PyError (List HtmlTable) :=
  ts.mapM prepare_html_table

/-! ## find_merge_table_candidates -/

/-- The loop of `find_merge_table_candidates`: `idx` is the enumeration index
of the head of the remaining list; `pidx`, `ppage`, `pmax` are
`pre_table_idx`, `pre_table_page`, `pre_max_offset`. -/
def fmtcAux : List HtmlTable → Int → Int → Int → Int → List MergeCandidate
  | [], _, _, _, _ => []
  | t :: rest, idx, pidx, ppage, pmax =>
    (if listMinD t.table_page = ppage + 1 then [⟨pidx, pmax, t.min_offset⟩] else [])
      ++ fmtcAux rest (idx + 1) idx (listMaxD t.table_page) t.max_offset

/-- `find_merge_table_candidates`, started from
`pre_table_idx = -1`, `pre_table_page = -1`, `pre_max_offset = 0`. -/
def find_merge_table_candidates (ts : List HtmlTable) : List MergeCandidate :=
  fmtcAux ts 0 (-1) (-1) 0

/-! ## check_paragraph_presence -/

/-- The role test of `check_paragraph_presence`: an absent/unset role returns
`True` at once; otherwise the role must not be page furniture. -/
def roleDisqualifies (role : Option String) : Bool :=
  match role with
  | none => true
  | some r => !(["pageHeader", "pageFooter", "pageNumber"].contains r)

/-- `check_paragraph_presence`: some span of some paragraph has
`start < offset < end` and the paragraph's role disqualifies the merge. -/
def check_paragraph_presence (paragraphs : List Paragraph) (start stop : Int) : Bool :=
  paragraphs.any (fun p => p.spans.any (fun sp =>
    decide (start < sp.offset) && decide (sp.offset < stop) && roleDisqualifies p.role))

/-! ## The two merge strategies -/

/-- `merge_tables_colum_wise` (source spelling): rows of the second table are
appended cell-wise to the rows of the first (`zip` truncates to the shorter,
and the first table keeps its surplus rows); metadata per the source dict. -/
def merge_tables_colum_wise (t1 t2 : HtmlTable) : HtmlTable :=
  { min_offset := min t1.min_offset t2.min_offset
    max_offset := max t1.max_offset t2.max_offset
    table_page := pySorted intLe (t1.table_page ++ t2.table_page)
    column_count := t1.column_count + t2.column_count
    header_row_count := t1.header_row_count
    header_text := pySorted strLe (t1.header_text ++ t2.header_text)
    non_header_row_count := t1.non_header_row_count
    content := (List.zipWith (fun r1 r2 => r1 ++ r2) t1.content t2.content)
      ++ t1.content.drop t2.content.length }

/-- `merge_tables_row_wise`: drop the first `len(header_rows)` rows of the
second table (where `header_rows` is every row containing a `<th>`), append
the rest to the first table; metadata per the source dict. -/
def merge_tables_row_wise (t1 t2 : HtmlTable) : HtmlTable :=
  { min_offset := min t1.min_offset t2.min_offset
    max_offset := max t1.max_offset t2.max_offset
    table_page := pySorted intLe (t1.table_page ++ t2.table_page)
    column_count := t1.column_count
    header_row_count := t1.header_row_count
    header_text := t1.header_text
    non_header_row_count := t1.non_header_row_count + t2.non_header_row_count
    content := t1.content ++ t2.content.drop ((headerRowsOf t2.content).length) }

/-! ## The two merge passes -/

/-- One iteration of `check_and_merge_column_wise`.  The source computes
`check_paragraph_presence` and then unconditionally overwrites the result
with `False` (line 314), so the gate never blocks a merge.  A `none` result
models the Python exception when an index is out of range or a slot holds
`None`. -/
def column_wise_step (paragraphs : List Paragraph) (l : List (Option HtmlTable))
    (c : MergeCandidate) : Option (List (Option HtmlTable)) := do
  let _hasParagraphComputed := check_paragraph_presence paragraphs c.start c.stop
  let has_paragraph := false
  let t1o ← pyGet l c.pre_table_idx
  let t2o ← pyGet l (c.pre_table_idx + 1)
  match t1o, t2o with
  | some t1, some t2 =>
    if !has_paragraph && t1.header_row_count == t2.header_row_count
        && t1.non_header_row_count == t2.non_header_row_count then do
      let l' ← pySet l (c.pre_table_idx + 1) (some (merge_tables_colum_wise t1 t2))
      pySet l' c.pre_table_idx none
    else
      some l
  | _, _ => none

/-- `check_and_merge_column_wise` over the candidate list. -/
def check_and_merge_column_wise (paragraphs : List Paragraph)
    (l : List (Option HtmlTable)) (cands : List MergeCandidate) :
    Option (List (Option HtmlTable)) :=
  cands.foldlM (column_wise_step paragraphs) l

/-- One iteration of `check_and_merge_row_wise`; the same `has_paragraph =
False` overwrite appears at line 337. -/
def row_wise_step (paragraphs : List Paragraph) (l : List (Option HtmlTable))
    (c : MergeCandidate) : Option (List (Option HtmlTable)) := do
  let _hasParagraphComputed := check_paragraph_presence paragraphs c.start c.stop
  let has_paragraph := false
  let t1o ← pyGet l c.pre_table_idx
  let t2o ← pyGet l (c.pre_table_idx + 1)
  match t1o, t2o with
  | some t1, some t2 =>
    if !has_paragraph && t1.column_count == t2.column_count
        && ((decide (t1.header_row_count ≤ 0) && decide (t2.header_row_count ≤ 0))
          || (t1.header_row_count == t2.header_row_count
              && t1.header_text == t2.header_text)) then do
      let l' ← pySet l (c.pre_table_idx + 1) (some (merge_tables_row_wise t1 t2))
      pySet l' c.pre_table_idx none
    else
      some l
  | _, _ => none

/-- `check_and_merge_row_wise` over the candidate list. -/
def check_and_merge_row_wise (paragraphs : List Paragraph)
    (l : List (Option HtmlTable)) (cands : List MergeCandidate) :
    Option (List (Option HtmlTable)) :=
  cands.foldlM (row_wise_step paragraphs) l

/-! ## chunks and split_table_with_headers -/

/-- The slice loop of `chunks` with explicit fuel (each iteration consumes at
least one element when `k ≥ 1`, so `fuel = l.length` suffices).  `k = 0` gives
`[]` where Python's `range` raises `ValueError`; theorems assume `0 < k`. -/
def chunksAux (fuel : Nat) (l : List α) (k : Nat) : List (List α) :=
  match fuel, l with
  | _, [] => []
  | 0, _ => []
  | fuel' + 1, x :: xs =>
    if k = 0 then [] else (x :: xs).take k :: chunksAux fuel' ((x :: xs).drop k) k

/-- `chunks(list, start_index, chunk_size)`: successive `chunk_size`-sized
slices `list[i:i+chunk_size]` for `i = start_index, start_index+k, ...`. -/
def chunks (l : List α) (start k : Nat) : List (List α) :=
  chunksAux (l.drop start).length (l.drop start) k

/-- `split_table_with_headers`.  For each chunk of the non-header rows the
source builds `"<table>" + header_string + str(chunk)... + "</table>"`, but
the trailing `if header_rows else ""` on the chunk line is a conditional
expression governing the whole assignment, so when the table has no header
rows the accumulated markup is discarded and the fragment collapses to
`"</table>"` — zero rows. -/
def split_table_with_headers (t : HtmlTable) (table_max_rows : Nat) : List HtmlTable :=
  let header_rows := headerRowsOf t.content
  let non_header_rows := bodyRowsOf t.content
  (chunks non_header_rows 0 table_max_rows).map (fun chunk =>
    let new_rows : List (List HtmlCell) :=
      if header_rows.isEmpty then [] else header_rows ++ chunk
    { t with content := new_rows })

/-! ## Specification-side definitions (from the claims' wording, for
comparison with the source-derived definitions above) -/

/-- Claim wording for C4: the number of contiguous leading rendered rows that
contain at least one header cell. -/
def leadingHeaderRowCount (rows : List (List HtmlCell)) : Nat :=
  (rows.takeWhile rowHasTh).length

/-- Claim wording for C5: the offsets of all spans of all the table's cells. -/
def cellSpanOffsets (t : RawTable) : List Int :=
  (t.cells.map (fun c => c.spans.map (fun sp => sp.offset))).flatten

/-- Claim wording for C5: the span ends `offset + length` of all cell spans. -/
def cellSpanEnds (t : RawTable) : List Int :=
  (t.cells.map (fun c => c.spans.map (fun sp => sp.offset + sp.length))).flatten

/-! ## Well-formedness of a cell grid

Under these two conditions — the first sorted cell sits at `columnIndex = 0`,
and `columnIndex = 0` never recurs inside one `rowIndex` — the markup emitted
by `table_to_html` is perfectly nested and its `<tr>` rows are exactly the
maximal runs of equal `rowIndex` in the sorted cell list. -/

/-- Scan of consecutive sorted cells: a repeated `rowIndex` must not restart
at `columnIndex = 0` (that would emit a nested, unclosed `<tr>`). -/
def chainOk : RawCell → List RawCell → Bool
  | _, [] => true
  | p, c :: rest =>
    (!(p.rowIndex == c.rowIndex) || !(c.columnIndex == 0)) && chainOk c rest

/-- Well-formedness of a table's cells (checked on the sorted list). -/
def wellFormedCells (cells : List RawCell) : Bool :=
  match pySorted cellLe cells with
  | [] => true
  | c :: rest => (c.columnIndex == 0) && chainOk c rest

/-- Group a cell list into maximal runs of equal `rowIndex`. -/
def rowGroupsAux : List RawCell → List RawCell → Int → List (List RawCell)
  | [], g, _ => [g]
  | c :: rest, g, cr =>
    if c.rowIndex == cr then rowGroupsAux rest (g ++ [c]) cr
    else g :: rowGroupsAux rest [c] c.rowIndex

/-- The maximal runs of equal `rowIndex` of a cell list. -/
def rowGroups : List RawCell → List (List RawCell)
  | [] => []
  | c :: rest => rowGroupsAux rest [c] c.rowIndex

/-! ## Concrete example inputs -/

/-- A 1-column table on page 1 with one header row `h` and one body row. -/
def exT1 : HtmlTable :=
  { min_offset := 0, max_offset := 10, table_page := [1], column_count := 1
    header_row_count := 1, header_text := ["h"], non_header_row_count := 1
    content := [[⟨true, 1, 1, "h"⟩], [⟨false, 1, 1, "a"⟩]] }

/-- A table of the same shape as `exT1` on page 2. -/
def exT2 : HtmlTable :=
  { min_offset := 20, max_offset := 30, table_page := [2], column_count := 1
    header_row_count := 1, header_text := ["h"], non_header_row_count := 1
    content := [[⟨true, 1, 1, "h"⟩], [⟨false, 1, 1, "b"⟩]] }

/-- A role-less paragraph whose span offset 15 lies strictly inside the
offset gap `(10, 20)` between `exT1` and `exT2`. -/
def exParagraphs : List Paragraph := [{ spans := [⟨15, 2⟩], role := none }]

/-- A normalized table with no header row and a single body row. -/
def exTableNoHeader : HtmlTable :=
  { min_offset := 0, max_offset := 10, table_page := [1], column_count := 1
    header_row_count := 0, header_text := [], non_header_row_count := 1
    content := [[⟨false, 1, 1, "a"⟩]] }

/-- A normalized table whose markup is a single header row and no body row. -/
def exHeaderOnlyTable : HtmlTable :=
  { min_offset := 0, max_offset := 10, table_page := [1], column_count := 1
    header_row_count := 1, header_text := ["h"], non_header_row_count := 0
    content := [[⟨true, 1, 1, "h"⟩]] }

/-- A raw table whose rendered rows are header, body, header: a header row
that is not part of the contiguous leading block. -/
def exT4 : RawTable :=
  { row_count := 3, column_count := 1
    cells :=
      [ { rowIndex := 0, columnIndex := 0, rowSpan := 1, columnSpan := 1
          kind := some "columnHeader", content := "h", spans := [] }
      , { rowIndex := 1, columnIndex := 0, rowSpan := 1, columnSpan := 1
          kind := none, content := "a", spans := [] }
      , { rowIndex := 2, columnIndex := 0, rowSpan := 1, columnSpan := 1
          kind := some "columnHeader", content := "g", spans := [] } ]
    bounding_regions := [⟨1⟩]
    spans := [⟨0, 30⟩] }

/-- The normalized record `prepare_html_table` produces for `exT4`. -/
def exT4proj : HtmlTable :=
  { min_offset := 0, max_offset := 30, table_page := [1], column_count := 1
    header_row_count := 2, header_text := ["g", "h"], non_header_row_count := 1
    content := [[⟨true, 1, 1, "h"⟩], [⟨false, 1, 1, "a"⟩], [⟨true, 1, 1, "g"⟩]] }

/-- A raw table whose own declared span is `[10, 15)` while its only cell
carries the much wider span `[0, 100)`. -/
def exT5 : RawTable :=
  { row_count := 1, column_count := 1
    cells :=
      [ { rowIndex := 0, columnIndex := 0, rowSpan := 1, columnSpan := 1
          kind := none, content := "x", spans := [⟨0, 100⟩] } ]
    bounding_regions := [⟨1⟩]
    spans := [⟨10, 5⟩] }

/-- The normalized record `prepare_html_table` produces for `exT5`. -/
def exT5proj : HtmlTable :=
  { min_offset := 10, max_offset := 15, table_page := [1], column_count := 1
    header_row_count := 0, header_text := [], non_header_row_count := 1
    content := [[⟨false, 1, 1, "x"⟩]] }

/-- A raw table with no cells (but a span and a region). -/
def exEmptyCellsTable : RawTable :=
  { row_count := 0, column_count := 0, cells := []
    bounding_regions := [⟨1⟩], spans := [⟨0, 5⟩] }

/-! ## Helper lemmas -/

theorem insertSorted_ne_nil (le : α → α → Bool) (x : α) (l : List α) :
    insertSorted le x l ≠ [] := by
  cases l with
  | nil => simp [insertSorted]
  | cons y ys =>
    simp only [insertSorted]
    split <;> simp

theorem pySorted_eq_nil_iff (le : α → α → Bool) (l : List α) :
    pySorted le l = [] ↔ l = [] := by
  cases l with
  | nil => simp [pySorted]
  | cons x xs =>
    simp only [pySorted]
    constructor
    · intro h
      exact absurd h (insertSorted_ne_nil le x (pySorted le xs))
    · intro h
      exact absurd h (by simp)

theorem roleDisqualifies_iff (ro : Option String) :
    roleDisqualifies ro = true ↔
      (ro = none ∨ ∀ r, ro = some r →
        r ∉ (["pageHeader", "pageFooter", "pageNumber"] : List String)) := by
  cases ro with
  | none => simp [roleDisqualifies]
  | some r => simp [roleDisqualifies]

/-! ## Claim theorems -/

/-- Claim C8 (confirmed): `check_paragraph_presence` returns `True` exactly
when some paragraph has a span whose offset lies strictly between `start` and
`stop` and that paragraph's role is unset or is none of pageHeader,
pageFooter, pageNumber. -/
theorem check_paragraph_presence_iff (ps : List Paragraph) (s e : Int) :
    check_paragraph_presence ps s e = true ↔
      ∃ p ∈ ps, (∃ sp ∈ p.spans, s < sp.offset ∧ sp.offset < e) ∧
        (p.role = none ∨ ∀ r, p.role = some r →
          r ∉ (["pageHeader", "pageFooter", "pageNumber"] : List String)) := by
  simp only [check_paragraph_presence, List.any_eq_true, Bool.and_eq_true,
    decide_eq_true_eq]
  constructor
  · rintro ⟨p, hp, sp, hsp, ⟨hlo, hhi⟩, hrole⟩
    exact ⟨p, hp, ⟨sp, hsp, hlo, hhi⟩, (roleDisqualifies_iff p.role).mp hrole⟩
  · rintro ⟨p, hp, ⟨sp, hsp, hlo, hhi⟩, hrole⟩
    exact ⟨p, hp, sp, hsp, ⟨hlo, hhi⟩, (roleDisqualifies_iff p.role).mpr hrole⟩

/-- Claim C7 (confirmed): under the column-wise precondition the column-wise
merge keeps the shared body-row count and sums the column counts; the
row-wise merge sums the body-row counts and keeps the first table's column
count, header-row count and header text. -/
theorem merge_counts_algebra (a b : HtmlTable)
    (hh : a.header_row_count = b.header_row_count)
    (hn : a.non_header_row_count = b.non_header_row_count) :
    (merge_tables_colum_wise a b).non_header_row_count = a.non_header_row_count ∧
    (merge_tables_colum_wise a b).non_header_row_count = b.non_header_row_count ∧
    (merge_tables_colum_wise a b).column_count = a.column_count + b.column_count ∧
    (merge_tables_row_wise a b).non_header_row_count
      = a.non_header_row_count + b.non_header_row_count ∧
    (merge_tables_row_wise a b).column_count = a.column_count ∧
    (merge_tables_row_wise a b).header_row_count = a.header_row_count ∧
    (merge_tables_row_wise a b).header_text = a.header_text := by
  refine ⟨rfl, ?_, rfl, rfl, rfl, rfl, rfl⟩
  simpa [merge_tables_colum_wise] using hn

theorem merge_counts_algebra_witness :
    (merge_tables_colum_wise exT1 exT2).non_header_row_count = exT1.non_header_row_count ∧
    (merge_tables_colum_wise exT1 exT2).non_header_row_count = exT2.non_header_row_count ∧
    (merge_tables_colum_wise exT1 exT2).column_count
      = exT1.column_count + exT2.column_count ∧
    (merge_tables_row_wise exT1 exT2).non_header_row_count
      = exT1.non_header_row_count + exT2.non_header_row_count ∧
    (merge_tables_row_wise exT1 exT2).column_count = exT1.column_count ∧
    (merge_tables_row_wise exT1 exT2).header_row_count = exT1.header_row_count ∧
    (merge_tables_row_wise exT1 exT2).header_text = exT1.header_text :=
  merge_counts_algebra exT1 exT2 rfl rfl

/-- Claim C1 (code bug): the lines `has_paragraph = False` at 314 and 337
disable the merge gate.  On two page-adjacent tables with a role-less
paragraph at offset 15 inside the gap `(10, 20)`, `check_paragraph_presence`
reports disqualifying content, yet both the column-wise and the row-wise pass
merge the pair: slot 0 of the working list becomes `None` instead of the
first table surviving. -/
theorem checkAndMerge_merges_despite_disqualifying_content :
    check_paragraph_presence exParagraphs 10 20 = true ∧
    find_merge_table_candidates [exT1, exT2] = [⟨0, 10, 20⟩] ∧
    (check_and_merge_column_wise exParagraphs [some exT1, some exT2]
        [⟨0, 10, 20⟩]).bind (fun l => l.get? 0) = some none ∧
    (check_and_merge_row_wise exParagraphs [some exT1, some exT2]
        [⟨0, 10, 20⟩]).bind (fun l => l.get? 0) = some none := by
  exact ⟨rfl, rfl, rfl, rfl⟩

/-- Claim C2 (code bug): on a table with no header rows and one body row,
`split_table_with_headers` emits one fragment whose markup has no rows at
all (the Python conditional at line 376 discards the accumulated markup),
so the concatenated body rows of the fragments are `[]`, not the table's
body-row sequence. -/
theorem split_drops_body_rows_without_headers :
    (split_table_with_headers exTableNoHeader 5).map (fun f => f.content) = [[]] ∧
    ((split_table_with_headers exTableNoHeader 5).map
        (fun f => bodyRowsOf f.content)).flatten = [] ∧
    bodyRowsOf exTableNoHeader.content = [[⟨false, 1, 1, "a"⟩]] := by
  exact ⟨rfl, rfl, rfl⟩

/-- Claim C3 (counterexample): on a table whose markup is one header row and
no body rows, `split_table_with_headers` returns no fragment at all — the
chunk loop over the empty body iterates zero times — not exactly one. -/
theorem split_headerOnly_returns_no_fragment :
    split_table_with_headers exHeaderOnlyTable 5 = [] ∧
    (split_table_with_headers exHeaderOnlyTable 5).length ≠ 1 := by
  exact ⟨rfl, by decide⟩

/-- Claim C3 (corrected): for every normalized table whose markup has zero
non-header rows and every positive `max_rows`, `split_table_with_headers`
returns the empty fragment list. -/
theorem split_empty_body_returns_nil (t : HtmlTable) (k : Nat)
    (hk : 0 < k) (hb : bodyRowsOf t.content = []) :
    split_table_with_headers t k = [] := by
  simp [split_table_with_headers, hb, chunks, chunksAux]

theorem split_empty_body_returns_nil_witness :
    split_table_with_headers exHeaderOnlyTable 5 = [] :=
  split_empty_body_returns_nil exHeaderOnlyTable 5 (by decide) (by decide)

/-- Claim C9 (counterexample): projecting a table with zero cells surfaces
`IndexError` (from `cells[0]`), which is not the `MalformedTableError` of
the design's error taxonomy. -/
theorem projection_empty_cells_index_error :
    prepare_html_table exEmptyCellsTable = .error .indexError ∧
    PyError.indexError ≠ PyError.malformedTableError := by
  exact ⟨rfl, by decide⟩

/-- Claim C9 (corrected): projecting a table with zero cells fails — with an
uncaught `IndexError`, not silently — and projection succeeds for every raw
table with at least one cell and at least one span. -/
theorem projection_faults_match_cells (t : RawTable) :
    (t.cells = [] → prepare_html_table t = .error .indexError) ∧
    (t.cells ≠ [] → t.spans ≠ [] → ∃ ht, prepare_html_table t = .ok ht) := by
  constructor
  · intro h
    cases hsp : t.spans with
    | nil => simp [prepare_html_table, get_table_span_offsets, hsp]
    | cons s ss =>
      simp [prepare_html_table, get_table_span_offsets, hsp, table_to_html, h, pySorted]
  · intro hc hs
    obtain ⟨s, ss, hsp⟩ := List.exists_cons_of_ne_nil hs
    cases hsort : pySorted cellLe t.cells with
    | nil => exact absurd ((pySorted_eq_nil_iff cellLe t.cells).mp hsort) hc
    | cons d ds =>
      cases hp : prepare_html_table t with
      | ok ht => exact ⟨ht, rfl⟩
      | error e =>
        simp [prepare_html_table, get_table_span_offsets, hsp, table_to_html, hsort] at hp

theorem projection_faults_match_cells_witness :
    prepare_html_table exEmptyCellsTable = .error .indexError ∧
    ∃ ht, prepare_html_table exT4 = .ok ht :=
  ⟨(projection_faults_match_cells exEmptyCellsTable).1 rfl,
   (projection_faults_match_cells exT4).2 (by decide) (by decide)⟩

theorem spanStep_fst_le (mm : Int × Int) (s : RawSpan) :
    (spanStep mm s).1 ≤ mm.1 ∧ (spanStep mm s).1 ≤ s.offset := by
  simp only [spanStep]
  constructor <;> split <;> omega

theorem spanStep_snd_ge (mm : Int × Int) (s : RawSpan) :
    mm.2 ≤ (spanStep mm s).2 ∧ s.offset + s.length ≤ (spanStep mm s).2 := by
  simp only [spanStep]
  constructor <;> split <;> omega

theorem spanFold_le :
    ∀ (l : List RawSpan) (mm : Int × Int),
      (l.foldl spanStep mm).1 ≤ mm.1 ∧ mm.2 ≤ (l.foldl spanStep mm).2 := by
  intro l
  induction l with
  | nil => intro mm; simp
  | cons s rest ih =>
    intro mm
    simp only [List.foldl_cons]
    have h := ih (spanStep mm s)
    have h1 := spanStep_fst_le mm s
    have h2 := spanStep_snd_ge mm s
    exact ⟨le_trans h.1 h1.1, le_trans h2.1 h.2⟩

theorem spanFold_bounds :
    ∀ (l : List RawSpan) (mm : Int × Int), ∀ sp ∈ l,
      (l.foldl spanStep mm).1 ≤ sp.offset ∧
        sp.offset + sp.length ≤ (l.foldl spanStep mm).2 := by
  intro l
  induction l with
  | nil => intro mm sp hsp; simp at hsp
  | cons s rest ih =>
    intro mm sp hsp
    simp only [List.foldl_cons]
    rcases List.mem_cons.mp hsp with h | h
    · subst h
      have h1 := spanStep_fst_le mm sp
      have h2 := spanStep_snd_ge mm sp
      have h3 := spanFold_le rest (spanStep mm sp)
      exact ⟨le_trans h3.1 h1.2, le_trans h2.2 h3.2⟩
    · exact ih (spanStep mm s) sp h

theorem spanFold_attained :
    ∀ (l : List RawSpan) (mm : Int × Int),
      ((l.foldl spanStep mm).1 = mm.1 ∨
        ∃ sp ∈ l, (l.foldl spanStep mm).1 = sp.offset) ∧
      ((l.foldl spanStep mm).2 = mm.2 ∨
        ∃ sp ∈ l, (l.foldl spanStep mm).2 = sp.offset + sp.length) := by
  intro l
  induction l with
  | nil => intro mm; simp
  | cons s rest ih =>
    intro mm
    simp only [List.foldl_cons]
    have h := ih (spanStep mm s)
    constructor
    · rcases h.1 with h1 | ⟨sp, hsp, h1⟩
      · rw [h1]
        simp only [spanStep]
        split
        · exact Or.inr ⟨s, List.mem_cons_self s rest, rfl⟩
        · exact Or.inl rfl
      · exact Or.inr ⟨sp, List.mem_cons_of_mem s hsp, h1⟩
    · rcases h.2 with h1 | ⟨sp, hsp, h1⟩
      · rw [h1]
        simp only [spanStep]
        split
        · exact Or.inr ⟨s, List.mem_cons_self s rest, rfl⟩
        · exact Or.inl rfl
      · exact Or.inr ⟨sp, List.mem_cons_of_mem s hsp, h1⟩

/-- Claim C5 (counterexample): the projected offsets of `exT5` come from the
table's own declared span `[10, 15)`, not from its cell's span `[0, 100)`:
the claimed min/max over all cell spans would be `0`/`100`. -/
theorem offsets_ignore_cell_spans :
    (prepare_html_table exT5).toOption.map (fun ht => ht.min_offset) = some 10 ∧
    (prepare_html_table exT5).toOption.map (fun ht => ht.max_offset) = some 15 ∧
    listMinD (cellSpanOffsets exT5) = 0 ∧
    listMaxD (cellSpanEnds exT5) = 100 ∧
    ((10 : Int) ≠ 0 ∧ (15 : Int) ≠ 100) := by
  exact ⟨rfl, rfl, rfl, rfl, by decide⟩

/-- Claim C5 (corrected): the projected `min_offset`/`max_offset` are the
minimum offset and maximum `offset + length` over the table's OWN declared
spans (`table.spans`); cell spans are never consulted. -/
theorem offsets_are_table_span_extrema (t : RawTable) (ht : HtmlTable)
    (hok : prepare_html_table t = .ok ht) :
    (∀ sp ∈ t.spans, ht.min_offset ≤ sp.offset ∧
        sp.offset + sp.length ≤ ht.max_offset) ∧
    (∃ sp ∈ t.spans, ht.min_offset = sp.offset) ∧
    (∃ sp ∈ t.spans, ht.max_offset = sp.offset + sp.length) := by
  cases hsp : t.spans with
  | nil => simp [prepare_html_table, get_table_span_offsets, hsp] at hok
  | cons s ss =>
    cases hrows : table_to_html t with
    | error e =>
      simp [prepare_html_table, get_table_span_offsets, hsp, hrows] at hok
    | ok rows =>
      simp only [prepare_html_table, get_table_span_offsets, hsp, hrows,
        Except.ok.injEq] at hok
      subst hok
      simp only [hsp]
      refine ⟨spanFold_bounds (s :: ss) (s.offset, s.offset + s.length), ?_, ?_⟩
      · rcases (spanFold_attained (s :: ss) (s.offset, s.offset + s.length)).1
          with h | ⟨sp, hmem, h⟩
        · exact ⟨s, List.mem_cons_self s ss, h⟩
        · exact ⟨sp, hmem, h⟩
      · rcases (spanFold_attained (s :: ss) (s.offset, s.offset + s.length)).2
          with h | ⟨sp, hmem, h⟩
        · exact ⟨s, List.mem_cons_self s ss, h⟩
        · exact ⟨sp, hmem, h⟩

theorem offsets_are_table_span_extrema_witness :
    exT5proj.min_offset ≤ (⟨10, 5⟩ : RawSpan).offset ∧
    (⟨10, 5⟩ : RawSpan).offset + (⟨10, 5⟩ : RawSpan).length ≤ exT5proj.max_offset :=
  (offsets_are_table_span_extrema exT5 exT5proj rfl).1 ⟨10, 5⟩ (by decide)

theorem foldl_min_mem : ∀ (l : List Int) (a : Int),
    l.foldl min a = a ∨ l.foldl min a ∈ l := by
  intro l
  induction l with
  | nil => intro a; simp
  | cons x xs ih =>
    intro a
    simp only [List.foldl_cons]
    rcases ih (min a x) with h | h
    · rcases min_choice a x with h2 | h2
      · exact Or.inl (h.trans h2)
      · exact Or.inr (by rw [h.trans h2]; exact List.mem_cons_self x xs)
    · exact Or.inr (List.mem_cons_of_mem x h)

theorem listMinD_mem (l : List Int) (h : l ≠ []) : listMinD l ∈ l := by
  cases l with
  | nil => exact absurd rfl h
  | cons x xs =>
    simp only [listMinD]
    rcases foldl_min_mem xs x with h1 | h1
    · rw [h1]; exact List.mem_cons_self x xs
    · exact List.mem_cons_of_mem x h1

theorem fmtcAux_pre_idx_lower :
    ∀ (ts : List HtmlTable) (idx pidx ppage pmax : Int),
      ∀ c ∈ fmtcAux ts idx pidx ppage pmax,
        c.pre_table_idx = pidx ∨ idx ≤ c.pre_table_idx := by
  intro ts
  induction ts with
  | nil => intro idx pidx ppage pmax c hc; simp [fmtcAux] at hc
  | cons t rest ih =>
    intro idx pidx ppage pmax c hc
    simp only [fmtcAux, List.mem_append] at hc
    rcases hc with hc | hc
    · by_cases h : listMinD t.table_page = ppage + 1
      · rw [if_pos h] at hc
        simp only [List.mem_singleton] at hc
        subst hc
        exact Or.inl rfl
      · rw [if_neg h] at hc
        simp at hc
    · rcases ih (idx + 1) idx (listMaxD t.table_page) t.max_offset c hc with h | h
      · exact Or.inr (le_of_eq h.symm)
      · exact Or.inr (by omega)

theorem fmtcAux_mem_spec :
    ∀ (ts : List HtmlTable) (idx pidx ppage pmax : Int) (c : MergeCandidate),
      c ∈ fmtcAux ts idx pidx ppage pmax →
      (∃ t0, ts.head? = some t0 ∧ listMinD t0.table_page = ppage + 1 ∧
        c = ⟨pidx, pmax, t0.min_offset⟩) ∨
      (∃ (i : Nat) (t1 t2 : HtmlTable), ts.get? i = some t1 ∧
        ts.get? (i + 1) = some t2 ∧
        listMinD t2.table_page = listMaxD t1.table_page + 1 ∧
        c = ⟨idx + (i : Int), t1.max_offset, t2.min_offset⟩) := by
  intro ts
  induction ts with
  | nil => intro idx pidx ppage pmax c hc; simp [fmtcAux] at hc
  | cons t rest ih =>
    intro idx pidx ppage pmax c hc
    simp only [fmtcAux, List.mem_append] at hc
    rcases hc with hc | hc
    · by_cases h : listMinD t.table_page = ppage + 1
      · rw [if_pos h] at hc
        simp only [List.mem_singleton] at hc
        exact Or.inl ⟨t, rfl, h, hc⟩
      · rw [if_neg h] at hc
        simp at hc
    · rcases ih (idx + 1) idx (listMaxD t.table_page) t.max_offset c hc with
        ⟨t0, hh, hcond, hceq⟩ | ⟨i, t1, t2, h1, h2, hcond, hceq⟩
      · right
        refine ⟨0, t, t0, rfl, ?_, hcond, ?_⟩
        · simpa [← List.get?_zero] using hh
        · simpa using hceq
      · right
        refine ⟨i + 1, t1, t2, ?_, ?_, hcond, ?_⟩
        · simpa using h1
        · simpa using h2
        · rw [show idx + ((i + 1 : Nat) : Int) = (idx + 1) + (i : Int) by push_cast; ring]
          exact hceq

theorem fmtcAux_mem_of_adjacent :
    ∀ (ts : List HtmlTable) (idx pidx ppage pmax : Int) (i : Nat) (t1 t2 : HtmlTable),
      ts.get? i = some t1 → ts.get? (i + 1) = some t2 →
      listMinD t2.table_page = listMaxD t1.table_page + 1 →
      (⟨idx + (i : Int), t1.max_offset, t2.min_offset⟩ : MergeCandidate)
        ∈ fmtcAux ts idx pidx ppage pmax := by
  intro ts
  induction ts with
  | nil => intro idx pidx ppage pmax i t1 t2 h1 h2 hcond; simp at h1
  | cons t rest ih =>
    intro idx pidx ppage pmax i t1 t2 h1 h2 hcond
    simp only [fmtcAux, List.mem_append]
    right
    cases i with
    | zero =>
      simp only [List.get?_cons_zero, Option.some.injEq] at h1
      subst h1
      simp only [Nat.cast_zero, add_zero]
      cases hrest : rest with
      | nil => rw [hrest] at h2; simp at h2
      | cons u us =>
        rw [hrest] at h2
        simp only [List.get?_cons_succ, List.get?_cons_zero, Option.some.injEq] at h2
        subst h2
        simp only [fmtcAux, List.mem_append]
        left
        rw [if_pos hcond]
        exact List.mem_singleton.mpr rfl
    | succ n =>
      have h1' : rest.get? n = some t1 := by simpa using h1
      have h2' : rest.get? (n + 1) = some t2 := by simpa using h2
      have hmem := ih (idx + 1) idx (listMaxD t.table_page) t.max_offset n t1 t2 h1' h2' hcond
      rw [show idx + ((n + 1 : Nat) : Int) = (idx + 1) + (n : Int) by push_cast; ring]
      exact hmem

theorem fmtcAux_countP_le_one :
    ∀ (ts : List HtmlTable) (idx pidx ppage pmax j : Int), pidx < idx →
      (fmtcAux ts idx pidx ppage pmax).countP
        (fun c => c.pre_table_idx == j) ≤ 1 := by
  intro ts
  induction ts with
  | nil => intro idx pidx ppage pmax j hlt; simp [fmtcAux]
  | cons t rest ih =>
    intro idx pidx ppage pmax j hlt
    simp only [fmtcAux, List.countP_append]
    by_cases hj : j = pidx
    · have htail : (fmtcAux rest (idx + 1) idx (listMaxD t.table_page)
          t.max_offset).countP (fun c => c.pre_table_idx == j) = 0 := by
        rw [List.countP_eq_zero]
        intro c hc
        have hcase := fmtcAux_pre_idx_lower rest (idx + 1) idx
          (listMaxD t.table_page) t.max_offset c hc
        simp only [beq_iff_eq]
        omega
      have hhead : (if listMinD t.table_page = ppage + 1
          then [(⟨pidx, pmax, t.min_offset⟩ : MergeCandidate)] else []).countP
            (fun c => c.pre_table_idx == j) ≤ 1 := by
        refine le_trans (List.countP_le_length _) ?_
        split <;> simp
      omega
    · have hhead : (if listMinD t.table_page = ppage + 1
          then [(⟨pidx, pmax, t.min_offset⟩ : MergeCandidate)] else []).countP
            (fun c => c.pre_table_idx == j) = 0 := by
        rw [List.countP_eq_zero]
        intro c hc
        split at hc
        · simp only [List.mem_singleton] at hc
          subst hc
          simp only [beq_iff_eq]
          omega
        · simp at hc
      have htail := ih (idx + 1) idx (listMaxD t.table_page) t.max_offset j (by omega)
      omega

/-- Claim C6 (confirmed): for each adjacent pair `(i, i+1)` of the list, a
candidate with `pre_table_idx = i` is emitted exactly when the later table's
minimum page equals the earlier table's maximum page plus 1; every such
candidate carries the earlier table's index and the gap
`(earlier.max_offset, later.min_offset)`; and at most one candidate is
emitted for the pair. -/
theorem find_candidates_adjacent_page_characterization
    (ts : List HtmlTable) (i : Nat) (t1 t2 : HtmlTable)
    (hpages : ∀ t ∈ ts, t.table_page ≠ [])
    (h1 : ts.get? i = some t1) (h2 : ts.get? (i + 1) = some t2) :
    (((⟨(i : Int), t1.max_offset, t2.min_offset⟩ : MergeCandidate)
        ∈ find_merge_table_candidates ts)
      ↔ listMinD t2.table_page = listMaxD t1.table_page + 1)
    ∧ (∀ c ∈ find_merge_table_candidates ts, c.pre_table_idx = (i : Int) →
        (listMinD t2.table_page = listMaxD t1.table_page + 1
          ∧ c = ⟨(i : Int), t1.max_offset, t2.min_offset⟩))
    ∧ (find_merge_table_candidates ts).countP
        (fun c => c.pre_table_idx == (i : Int)) ≤ 1 := by
  have key : ∀ c ∈ find_merge_table_candidates ts, c.pre_table_idx = (i : Int) →
      (listMinD t2.table_page = listMaxD t1.table_page + 1
        ∧ c = ⟨(i : Int), t1.max_offset, t2.min_offset⟩) := by
    intro c hc hidx
    rcases fmtcAux_mem_spec ts 0 (-1) (-1) 0 c hc with
      ⟨t0, hh, hcond, hceq⟩ | ⟨i', t1', t2', h1', h2', hcond, hceq⟩
    · exfalso
      rw [hceq] at hidx
      simp only at hidx
      omega
    · rw [hceq] at hidx
      simp only at hidx
      have hii : i' = i := by omega
      subst hii
      rw [h1] at h1'
      rw [h2] at h2'
      simp only [Option.some.injEq] at h1' h2'
      subst h1'
      subst h2'
      refine ⟨hcond, ?_⟩
      rw [hceq]
      simp
  refine ⟨⟨fun hmem => (key _ hmem rfl).1, fun hcond => ?_⟩, key, ?_⟩
  · have hmem := fmtcAux_mem_of_adjacent ts 0 (-1) (-1) 0 i t1 t2 h1 h2 hcond
    simpa using hmem
  · exact fmtcAux_countP_le_one ts 0 (-1) (-1) 0 (i : Int) (by omega)

theorem find_candidates_characterization_witness :
    ((⟨((0 : Nat) : Int), exT1.max_offset, exT2.min_offset⟩ : MergeCandidate)
        ∈ find_merge_table_candidates [exT1, exT2])
      ↔ listMinD exT2.table_page = listMaxD exT1.table_page + 1 :=
  (find_candidates_adjacent_page_characterization [exT1, exT2] 0 exT1 exT2
    (by decide) rfl rfl).1

/-- Claim C10 (confirmed): when every table has a nonempty page list with
pages at least 1, every emitted candidate has `pre_table_idx ≥ 0` and
`pre_table_idx + 1 < length`, so the merge passes index the working list
only at valid non-negative positions. -/
theorem candidates_have_valid_indices (ts : List HtmlTable)
    (h : ∀ t ∈ ts, t.table_page ≠ [] ∧ ∀ p ∈ t.table_page, 1 ≤ p) :
    ∀ c ∈ find_merge_table_candidates ts,
      0 ≤ c.pre_table_idx ∧ c.pre_table_idx + 1 < (ts.length : Int) := by
  intro c hc
  rcases fmtcAux_mem_spec ts 0 (-1) (-1) 0 c hc with
    ⟨t0, hh, hcond, hceq⟩ | ⟨i, t1, t2, h1, h2, hcond, hceq⟩
  · exfalso
    have ht0 : t0 ∈ ts := by
      cases ts with
      | nil => simp at hh
      | cons u us =>
        simp only [List.head?_cons, Option.some.injEq] at hh
        rw [← hh]
        exact List.mem_cons_self u us
    obtain ⟨hne, hge⟩ := h t0 ht0
    have hmem := listMinD_mem t0.table_page hne
    have hone := hge _ hmem
    omega
  · subst hceq
    obtain ⟨hlen, -⟩ := List.get?_eq_some.mp h2
    simp only
    omega

theorem candidates_have_valid_indices_witness :
    0 ≤ (⟨0, 10, 20⟩ : MergeCandidate).pre_table_idx ∧
    (⟨0, 10, 20⟩ : MergeCandidate).pre_table_idx + 1
      < (([exT1, exT2] : List HtmlTable).length : Int) :=
  candidates_have_valid_indices [exT1, exT2] (by decide) ⟨0, 10, 20⟩ (by decide)

theorem any_map_eq (f : α → β) (p : β → Bool) (l : List α) :
    (l.map f).any p = l.any (fun a => p (f a)) := by
  induction l with
  | nil => rfl
  | cons x xs ih => simp [List.any_cons, ih]

theorem buildRowsAux_eq_rowGroups :
    ∀ (s : List RawCell) (prev : RawCell) (gr : List RawCell),
      chainOk prev s = true →
      buildRowsAux s prev.rowIndex (some (gr.map toHtmlCell)) =
        (rowGroupsAux s gr prev.rowIndex).map (fun g => g.map toHtmlCell) := by
  intro s
  induction s with
  | nil =>
    intro prev gr _
    simp [buildRowsAux, rowGroupsAux, closeRow]
  | cons c rest ih =>
    intro prev gr hchain
    simp only [chainOk, Bool.and_eq_true, Bool.or_eq_true, Bool.not_eq_true',
      beq_eq_false_iff_ne, ne_eq, beq_iff_eq] at hchain
    obtain ⟨hhead, htail⟩ := hchain
    have htail' : chainOk c rest = true := by
      simpa [chainOk] using htail
    by_cases hrow : c.rowIndex = prev.rowIndex
    · have hcol : ¬(c.columnIndex = 0) := by
        rcases hhead with h | h
        · exact absurd hrow.symm h
        · exact h
      simp only [buildRowsAux, if_neg (by omega : ¬(c.rowIndex ≠ prev.rowIndex)),
        if_neg hcol]
      have hih := ih c (gr ++ [c]) htail'
      rw [List.map_append] at hih
      simp only [List.map_cons, List.map_nil] at hih
      rw [hrow] at hih
      rw [hih]
      simp only [rowGroupsAux, if_pos (beq_iff_eq.mpr hrow)]
    · simp only [buildRowsAux, if_pos (by omega : c.rowIndex ≠ prev.rowIndex)]
      have hih := ih c [c] htail'
      simp only [List.map_cons, List.map_nil] at hih
      rw [hih]
      simp only [rowGroupsAux, if_neg (by simp [hrow] : ¬(c.rowIndex == prev.rowIndex) = true)]
      simp [closeRow]

theorem table_to_html_eq_rowGroups (t : RawTable)
    (hwf : wellFormedCells t.cells = true) (rows : List (List HtmlCell))
    (hok : table_to_html t = .ok rows) :
    rows = (rowGroups (pySorted cellLe t.cells)).map (fun g => g.map toHtmlCell) := by
  unfold table_to_html at hok
  unfold wellFormedCells at hwf
  cases hsort : pySorted cellLe t.cells with
  | nil =>
    rw [hsort] at hok
    simp at hok
  | cons c rest =>
    rw [hsort] at hok hwf
    simp only [Except.ok.injEq] at hok
    simp only [Bool.and_eq_true, beq_iff_eq] at hwf
    obtain ⟨hcol0, hchain⟩ := hwf
    subst hok
    simp only [buildRowsAux, if_neg (by omega : ¬(c.rowIndex ≠ c.rowIndex)),
      if_pos hcol0, closeRow, List.nil_append]
    have hb := buildRowsAux_eq_rowGroups rest c [c] hchain
    simp only [List.map_cons, List.map_nil] at hb
    rw [hb]
    simp [rowGroups]

/-- Claim C4 (counterexample): `exT4` renders as a header row, a body row and
a second header row; the projection reports `header_row_count = 2` — every
row containing a `<th>` — while the claimed count of contiguous leading
header rows is `1`. -/
theorem header_row_count_not_leading_count :
    (prepare_html_table exT4).toOption.map (fun ht => ht.header_row_count) = some 2 ∧
    (table_to_html exT4).toOption.map (fun rows => leadingHeaderRowCount rows) = some 1 ∧
    ((2 : Int) ≠ 1) := by
  exact ⟨rfl, rfl, by decide⟩

/-- Claim C4 (corrected): for a raw table whose sorted cells render to
well-nested markup, `header_row_count` equals the number of ALL rendered rows
(maximal runs of equal `rowIndex`) containing at least one cell marked as a
column header — wherever those rows occur, not only in a leading block. -/
theorem header_row_count_counts_all_header_rows (t : RawTable) (ht : HtmlTable)
    (hwf : wellFormedCells t.cells = true)
    (hok : prepare_html_table t = .ok ht) :
    ht.header_row_count =
      (((rowGroups (pySorted cellLe t.cells)).countP
          (fun g => g.any (fun c => c.kind == some "columnHeader"))) : Int) := by
  cases hsp : t.spans with
  | nil => simp [prepare_html_table, get_table_span_offsets, hsp] at hok
  | cons s ss =>
    cases hrows : table_to_html t with
    | error e =>
      simp [prepare_html_table, get_table_span_offsets, hsp, hrows] at hok
    | ok rows =>
      simp only [prepare_html_table, get_table_span_offsets, hsp, hrows,
        Except.ok.injEq] at hok
      subst hok
      show (((headerRowsOf rows).length : Nat) : Int) = _
      rw [table_to_html_eq_rowGroups t hwf rows hrows]
      simp only [headerRowsOf]
      rw [← List.countP_eq_length_filter, List.countP_map]
      norm_cast
      have hfun : (rowHasTh ∘ fun g : List RawCell => g.map toHtmlCell)
          = (fun g : List RawCell => g.any (fun c => c.kind == some "columnHeader")) := by
        funext g
        show (g.map toHtmlCell).any (fun c => c.isTh) = _
        rw [any_map_eq]
        rfl
      rw [hfun]

theorem header_row_count_counts_all_header_rows_witness :
    exT4proj.header_row_count =
      (((rowGroups (pySorted cellLe exT4.cells)).countP
          (fun g => g.any (fun c => c.kind == some "columnHeader"))) : Int) :=
  header_row_count_counts_all_header_rows exT4 exT4proj (by decide) rfl
